import Mathlib

/-
Verification of the klage-unleash-proxy core: the per-caller Unleash client
registry (package clients), the feature-check HTTP handler (package feature),
and the flag-name validator.  Strings are modelled as Lean strings; where the
Go code works on raw bytes (length checks, url.PathEscape) we convert to the
UTF-8 byte sequence explicitly.
-/

set_option maxRecDepth 4096

/-! ## UTF-8 byte view of strings (Go `len` and `url.PathEscape` act on bytes) -/

/-- UTF-8 encoding of a single character, as the list of its bytes. -/
def utf8EncodeChar (c : Char) : List Nat :=
  let n := c.toNat
  if n < 128 then [n]
  else if n < 2048 then [192 + n / 64, 128 + n % 64]
  else if n < 65536 then [224 + n / 4096, 128 + (n / 64) % 64, 128 + n % 64]
  else [240 + n / 262144, 128 + (n / 4096) % 64, 128 + (n / 64) % 64, 128 + n % 64]

/-- The UTF-8 bytes of a string, the byte sequence Go's `len` and
`url.PathEscape` operate on. -/
def strBytes (s : String) : List Nat :=
  s.data.flatMap utf8EncodeChar

/-! ## Go net/url path-segment escaping (url.PathEscape)

Faithful to Go's `shouldEscape(c, encodePathSegment)`: alphanumerics and
the marks `-` `_` `.` `~` are never escaped; of the RFC 3986 reserved
characters `$ & + , / : ; = ? @`, exactly `/ ; , ?` are escaped in a path
segment; every other byte is escaped as `%XX` with uppercase hex digits. -/

/-- Whether Go's `shouldEscape` escapes the byte in path-segment mode. -/
def shouldEsc (b : Nat) : Bool :=
  if (97 ≤ b && b ≤ 122) || (65 ≤ b && b ≤ 90) || (48 ≤ b && b ≤ 57) then false
  else if b == 45 || b == 95 || b == 46 || b == 126 then false
  else if b == 36 || b == 38 || b == 43 || b == 44 || b == 47 || b == 58 ||
          b == 59 || b == 61 || b == 63 || b == 64 then
    b == 47 || b == 59 || b == 44 || b == 63
  else true

/-- Uppercase hexadecimal digit, as a byte, for a value below 16. -/
def upperHexDigit (n : Nat) : Nat :=
  if n < 10 then 48 + n else 55 + n

/-- Escape one byte the way Go's `escape` does in path-segment mode. -/
def escapeByte (b : Nat) : List Nat :=
  if shouldEsc b then [37, upperHexDigit (b / 16), upperHexDigit (b % 16)] else [b]

/-- Go's `url.PathEscape`, on the byte sequence of the string. -/
def pathEscape (bs : List Nat) : List Nat :=
  bs.flatMap escapeByte

/-- Byte sequence of the string consisting of a single dot. -/
def dotBytes : List Nat := [46]

/-- Byte sequence of the string consisting of two dots. -/
def dotdotBytes : List Nat := [46, 46]

/-- feature.IsValidName on the UTF-8 byte sequence of the name:
length between 1 and 100 bytes, not `.` or `..`, and fixed by
`url.PathEscape`. -/
def isValidNameBytes (bs : List Nat) : Bool :=
  if bs.length < 1 || bs.length > 100 then false
  else if bs == dotBytes || bs == dotdotBytes then false
  else pathEscape bs == bs

/-- feature.IsValidName from src/unnamed/part_001. -/
def IsValidName (name : String) : Bool :=
  isValidNameBytes (strBytes name)

/-! ## JSON values and a model of encoding/json Decoder.Decode

The handler parses its body with `json.NewDecoder(r.Body).Decode(&req)`:
the decoder reads the first JSON value of the stream (bytes after it are
never examined), matches object keys against the struct's json tags
exactly or ASCII-case-insensitively, ignores unknown keys, leaves fields
absent from the object at their zero value (the empty string), and fails
on syntactically invalid input or on a value of the wrong type. -/

/-- JSON values; number lexemes are kept verbatim. -/
inductive Json where
  | null : Json
  | bool : Bool → Json
  | num : String → Json
  | str : String → Json
  | arr : List Json → Json
  | obj : List (String × Json) → Json

/-- JSON insignificant whitespace. -/
def isWsChar (c : Char) : Bool :=
  c.toNat = 32 || c.toNat = 9 || c.toNat = 10 || c.toNat = 13

/-- Drop leading JSON whitespace. -/
def skipWs (input : List Char) : List Char :=
  input.dropWhile isWsChar

/-- Value of a hexadecimal digit byte, if it is one. -/
def hexVal (n : Nat) : Option Nat :=
  if 48 ≤ n && n ≤ 57 then some (n - 48)
  else if 97 ≤ n && n ≤ 102 then some (n - 87)
  else if 65 ≤ n && n ≤ 70 then some (n - 55)
  else none

/-- Character denoted by a JSON backslash escape (other than u-escapes). -/
def escChar (n : Nat) : Option Char :=
  if n = 34 then some (Char.ofNat 34)
  else if n = 92 then some (Char.ofNat 92)
  else if n = 47 then some (Char.ofNat 47)
  else if n = 98 then some (Char.ofNat 8)
  else if n = 102 then some (Char.ofNat 12)
  else if n = 110 then some (Char.ofNat 10)
  else if n = 114 then some (Char.ofNat 13)
  else if n = 116 then some (Char.ofNat 9)
  else none

/-- Parse the remainder of a JSON string, after the opening quote. -/
def parseStringChars : List Char → Option (List Char × List Char)
  | [] => none
  | c :: rest =>
    if c.toNat = 34 then some ([], rest)
    else if c.toNat = 92 then
      match rest with
      | [] => none
      | e :: rest2 =>
        if e.toNat = 117 then
          match rest2 with
          | h1 :: h2 :: h3 :: h4 :: rest3 =>
            match hexVal h1.toNat, hexVal h2.toNat, hexVal h3.toNat, hexVal h4.toNat with
            | some a, some b, some c2, some d =>
              (parseStringChars rest3).map
                (fun p => (Char.ofNat (4096 * a + 256 * b + 16 * c2 + d) :: p.1, p.2))
            | _, _, _, _ => none
          | _ => none
        else
          match escChar e.toNat with
          | some ec => (parseStringChars rest2).map (fun p => (ec :: p.1, p.2))
          | none => none
    else if c.toNat < 32 then none
    else (parseStringChars rest).map (fun p => (c :: p.1, p.2))

/-- Take a maximal run of decimal digits. -/
def takeDigits : List Char → List Char × List Char
  | [] => ([], [])
  | c :: rest =>
    if 48 ≤ c.toNat && c.toNat ≤ 57 then
      let p := takeDigits rest
      (c :: p.1, p.2)
    else ([], c :: rest)

/-- Optional fraction part of a JSON number. -/
def fracPart : List Char → Option (List Char × List Char)
  | [] => some ([], [])
  | c :: rest =>
    if c.toNat = 46 then
      match takeDigits rest with
      | ([], _) => none
      | (ds, r) => some (c :: ds, r)
    else some ([], c :: rest)

/-- Optional exponent part of a JSON number. -/
def expPart : List Char → Option (List Char × List Char)
  | [] => some ([], [])
  | c :: rest =>
    if c.toNat = 101 || c.toNat = 69 then
      let p : List Char × List Char :=
        match rest with
        | s :: r => if s.toNat = 43 || s.toNat = 45 then ([s], r) else ([], rest)
        | [] => ([], [])
      match takeDigits p.2 with
      | ([], _) => none
      | (ds, r2) => some (c :: p.1 ++ ds, r2)
    else some ([], c :: rest)

/-- Continue a JSON number after its integer part. -/
def continueNum (intPart : List Char) (input : List Char) : Option (Json × List Char) :=
  match fracPart input with
  | none => none
  | some (fs, in2) =>
    match expPart in2 with
    | none => none
    | some (es, in3) => some (Json.num (String.mk (intPart ++ fs ++ es)), in3)

/-- Parse a JSON number (RFC 8259 grammar). -/
def parseNumber (input : List Char) : Option (Json × List Char) :=
  let p : List Char × List Char :=
    match input with
    | c :: rest => if c.toNat = 45 then ([c], rest) else ([], input)
    | [] => ([], [])
  match p.2 with
  | [] => none
  | c :: rest =>
    if c.toNat = 48 then continueNum (p.1 ++ [c]) rest
    else if 49 ≤ c.toNat && c.toNat ≤ 57 then
      let q := takeDigits rest
      continueNum (p.1 ++ c :: q.1) q.2
    else none

mutual

/-- Parse one JSON value; fuel bounds the recursion depth. -/
def parseValue : Nat → List Char → Option (Json × List Char)
  | 0, _ => none
  | fuel + 1, input =>
    match skipWs input with
    | [] => none
    | c :: rest =>
      if c.toNat = 110 then
        match rest with
        | u :: l1 :: l2 :: rest2 =>
          if u.toNat = 117 && l1.toNat = 108 && l2.toNat = 108 then
            some (Json.null, rest2)
          else none
        | _ => none
      else if c.toNat = 116 then
        match rest with
        | r1 :: u :: e1 :: rest2 =>
          if r1.toNat = 114 && u.toNat = 117 && e1.toNat = 101 then
            some (Json.bool true, rest2)
          else none
        | _ => none
      else if c.toNat = 102 then
        match rest with
        | a1 :: l1 :: s1 :: e1 :: rest2 =>
          if a1.toNat = 97 && l1.toNat = 108 && s1.toNat = 115 && e1.toNat = 101 then
            some (Json.bool false, rest2)
          else none
        | _ => none
      else if c.toNat = 34 then
        (parseStringChars rest).map (fun p => (Json.str (String.mk p.1), p.2))
      else if c.toNat = 91 then
        match skipWs rest with
        | c2 :: rest2 =>
          if c2.toNat = 93 then some (Json.arr [], rest2)
          else parseArrayItems fuel rest []
        | [] => none
      else if c.toNat = 123 then
        match skipWs rest with
        | c2 :: rest2 =>
          if c2.toNat = 125 then some (Json.obj [], rest2)
          else parseObjectItems fuel rest []
        | [] => none
      else if c.toNat = 45 || (48 ≤ c.toNat && c.toNat ≤ 57) then
        parseNumber (c :: rest)
      else none

/-- Parse the members of a JSON array, next input being an element. -/
def parseArrayItems : Nat → List Char → List Json → Option (Json × List Char)
  | 0, _, _ => none
  | fuel + 1, input, acc =>
    match parseValue fuel input with
    | none => none
    | some (v, rest) =>
      match skipWs rest with
      | c :: rest2 =>
        if c.toNat = 44 then parseArrayItems fuel rest2 (acc ++ [v])
        else if c.toNat = 93 then some (Json.arr (acc ++ [v]), rest2)
        else none
      | [] => none

/-- Parse the members of a JSON object, next input being a key string. -/
def parseObjectItems : Nat → List Char → List (String × Json) → Option (Json × List Char)
  | 0, _, _ => none
  | fuel + 1, input, acc =>
    match skipWs input with
    | [] => none
    | c :: rest =>
      if c.toNat = 34 then
        match parseStringChars rest with
        | none => none
        | some (key, rest2) =>
          match skipWs rest2 with
          | [] => none
          | c2 :: rest3 =>
            if c2.toNat = 58 then
              match parseValue fuel rest3 with
              | none => none
              | some (v, rest4) =>
                match skipWs rest4 with
                | [] => none
                | c3 :: rest5 =>
                  if c3.toNat = 44 then
                    parseObjectItems fuel rest5 (acc ++ [(String.mk key, v)])
                  else if c3.toNat = 125 then
                    some (Json.obj (acc ++ [(String.mk key, v)]), rest5)
                  else none
            else none
      else none

end

/-! ## The request body and its decoding (feature.Request) -/

/-- feature.Request, the JSON body of a feature check. -/
structure Request where
  navIdent : String
  appName : String
  podName : String
deriving DecidableEq

/-- The zero value of feature.Request. -/
def emptyRequest : Request :=
  { navIdent := "", appName := "", podName := "" }

/-- ASCII lowercase of one character. -/
def lowerChar (c : Char) : Char :=
  if 65 ≤ c.toNat && c.toNat ≤ 90 then Char.ofNat (c.toNat + 32) else c

/-- Go json key matching: exact, or ASCII-case-insensitive fallback. -/
def keyMatches (key tag : String) : Bool :=
  key == tag || key.data.map lowerChar == tag.data.map lowerChar

/-- Assign one JSON object member to the matching Request field: strings
are stored, null leaves the field as is, any other type is a decoding
error (Go UnmarshalTypeError), unknown keys are ignored. -/
def setField (req : Request) (key : String) (v : Json) : Option Request :=
  if keyMatches key "navIdent" then
    match v with
    | Json.str s => some { req with navIdent := s }
    | Json.null => some req
    | _ => none
  else if keyMatches key "appName" then
    match v with
    | Json.str s => some { req with appName := s }
    | Json.null => some req
    | _ => none
  else if keyMatches key "podName" then
    match v with
    | Json.str s => some { req with podName := s }
    | Json.null => some req
    | _ => none
  else some req

/-- Fold the object members into the Request, in order. -/
def applyFields : Option Request → List (String × Json) → Option Request
  | acc, [] => acc
  | none, _ :: _ => none
  | some req, (k, v) :: rest => applyFields (setField req k v) rest

/-- Model of `json.NewDecoder(r.Body).Decode(&req)`: decode the first JSON
value of the body (trailing bytes are ignored); a top-level object fills
the struct member by member, a top-level null leaves it zero, anything
else fails. -/
def decodeRequest (body : String) : Option Request :=
  match parseValue (body.data.length + 8) body.data with
  | some (Json.obj fields, _) => applyFields (some emptyRequest) fields
  | some (Json.null, _) => some emptyRequest
  | some _ => none
  | none => none

/-! ## The client registry (package clients, src/unnamed/part_000)

An upstream Unleash client is treated as the opaque evaluation capability
the spec describes: given a flag name and a request context it yields a
boolean.  Client construction (`unleash.NewClient` followed by
`WaitForReady`) is a parameter: for each app name it either yields a
client or fails with a cause.  The concurrent fan-out/barrier of
`Initialize` is modelled, as the spec's design notes direct, as the list
of all per-app construction results computed first and the final state
and aggregate error computed deterministically from that list. -/

/-- Evaluation context passed to the upstream client (unleash context.Context
fields the handler sets). -/
structure UnleashContext where
  environment : String
  userId : String
  appName : String
  remoteAddress : String
  properties : List (String × String)

/-- An upstream Unleash client, reduced to its evaluation capability. -/
structure Client where
  isEnabled : String → UnleashContext → Bool

/-- Registry state: the app-name-to-client map and the readiness flag. -/
structure ClientsState where
  clientMap : List (String × Client)
  ready : Bool

/-- Initial registry state: empty map, not ready. -/
def initialState : ClientsState :=
  { clientMap := [], ready := false }

/-- Map lookup (Go `clientMap[appName]` read). -/
def mapGet : List (String × Client) → String → Option Client
  | [], _ => none
  | p :: rest, k => if p.1 == k then some p.2 else mapGet rest k

/-- Map insertion (Go `clientMap[app] = client`): overwrite or append. -/
def mapInsert : List (String × Client) → String → Client → List (String × Client)
  | [], k, v => [(k, v)]
  | p :: rest, k, v => if p.1 == k then (k, v) :: rest else p :: mapInsert rest k v

/-- clients.Get: read-locked lookup in the client map. -/
def Get (s : ClientsState) (appName : String) : Option Client :=
  mapGet s.clientMap appName

/-- clients.Ready: the readiness flag. -/
def Ready (s : ClientsState) : Bool :=
  s.ready

/-- clients.Close: releases every client (external effect) and empties the
map; the readiness flag is not touched. -/
def Close (s : ClientsState) : ClientsState :=
  { s with clientMap := [] }

/-- The per-failure message clients.Initialize builds for one app. -/
def mkInitErr (app cause : String) : String :=
  "failed to create Unleash client for " ++ app ++ ": " ++ cause

/-- All construction results: one construction per allow-listed app. -/
def constructResults (construct : String → Except String Client) (apps : List String) :
    List (String × Except String Client) :=
  apps.map fun a => (a, construct a)

/-- Insert every successful construction into the map (each goroutine's
`clientMap[app] = client` under the write lock). -/
def insertResults (m : List (String × Client)) (rs : List (String × Except String Client)) :
    List (String × Client) :=
  rs.foldl (fun acc p =>
    match p.2 with
    | Except.ok c => mapInsert acc p.1 c
    | Except.error _ => acc) m

/-- The messages of all failed constructions, drained from the error channel. -/
def failuresOf (rs : List (String × Except String Client)) : List String :=
  rs.filterMap fun p =>
    match p.2 with
    | Except.error e => some (mkInitErr p.1 e)
    | Except.ok _ => none

/-- clients.Initialize: construct a client for every allow-listed app,
wait for all of them, insert the successes, collect the failures; with no
failure set the readiness flag and return no error, otherwise leave the
flag alone and return the aggregate error listing every failure. -/
def Initialize (construct : String → Except String Client) (apps : List String)
    (s : ClientsState) : ClientsState × Option (List String) :=
  let rs := constructResults construct apps
  let m := insertResults s.clientMap rs
  let errs := failuresOf rs
  if errs.isEmpty then ({ clientMap := m, ready := true }, none)
  else ({ clientMap := m, ready := s.ready }, some errs)

/-! ## Registry operation traces -/

/-- Registry operations invoked on the shared state after startup. -/
inductive Op where
  | initClients : (String → Except String Client) → Op
  | get : String → Op
  | close : Op

/-- Whether the operation is an Initialize call. -/
def Op.isInit : Op → Bool
  | Op.initClients _ => true
  | Op.get _ => false
  | Op.close => false

/-- Effect of one operation on the registry state (Get is read-only). -/
def applyOp (apps : List String) (s : ClientsState) : Op → ClientsState
  | Op.initClients construct => (Initialize construct apps s).1
  | Op.get _ => s
  | Op.close => Close s

/-- Run a sequence of operations from a state. -/
def run (apps : List String) (ops : List Op) (s : ClientsState) : ClientsState :=
  ops.foldl (applyOp apps) s

/-! ## The feature handler (package feature, src/unnamed/part_001) -/

/-- The parts of the inbound HTTP request the handler reads. -/
structure HttpRequest where
  method : String
  path : String
  body : String
  remoteAddr : String

/-- Outcome of the feature handler, one constructor per exit point. -/
inductive HandlerResult where
  | methodNotAllowed : HandlerResult
  | missingFeatureName : HandlerResult
  | invalidFeatureName : HandlerResult
  | malformedBody : HandlerResult
  | missingAppName : HandlerResult
  | unknownAppName : HandlerResult
  | ok : Bool → HandlerResult
deriving DecidableEq

/-- HTTP status written for each handler outcome. -/
def statusCode : HandlerResult → Nat
  | HandlerResult.methodNotAllowed => 405
  | HandlerResult.missingFeatureName => 400
  | HandlerResult.invalidFeatureName => 400
  | HandlerResult.malformedBody => 400
  | HandlerResult.missingAppName => 400
  | HandlerResult.unknownAppName => 400
  | HandlerResult.ok _ => 200

/-- strings.Join(apps, ", "), used in the error messages. -/
def joinApps : List String → String
  | [] => ""
  | [a] => a
  | a :: b :: rest => a ++ ", " ++ joinApps (b :: rest)

/-- Response body written for each handler outcome (http.Error appends a
newline; the success body is the JSON encoding of feature.Response). -/
def responseBody (apps : List String) : HandlerResult → String
  | HandlerResult.methodNotAllowed => "Method not allowed\n"
  | HandlerResult.missingFeatureName => "Feature name is required\n"
  | HandlerResult.invalidFeatureName =>
    "Invalid feature name: must be URL-friendly, 1-100 characters, and not \x27.\x27 or \x27..\x27\n"
  | HandlerResult.malformedBody => "Invalid JSON body\n"
  | HandlerResult.missingAppName =>
    "app_name is required in request body, must be one of the allowed inbound applications: " ++
      joinApps apps ++ "\n"
  | HandlerResult.unknownAppName =>
    "Unknown app_name: must be one of the allowed inbound applications: " ++
      joinApps apps ++ "\n"
  | HandlerResult.ok b =>
    "\x7b\"enabled\":" ++ (if b then "true" else "false") ++ "\x7d\n"

/-- The PathPrefix the handler strips from the request path. -/
def pathPre : String := "/features/"

/-- strings.TrimPrefix(path, "/features/"): the trailing path segment the
handler treats as the feature name. -/
def featureNameOf (path : String) : String :=
  if pathPre.data.isPrefixOf path.data then String.mk (path.data.drop 10) else path

/-- The unleash context the handler builds from the request. -/
def mkContext (envr : String) (req : Request) (remoteAddr : String) : UnleashContext :=
  { environment := envr
    userId := req.navIdent
    appName := req.appName
    remoteAddress := remoteAddr
    properties := [("podName", req.podName)] }

/-- feature.Handler: method check, feature-name extraction and validation,
body decoding, app-name presence, registry lookup, then evaluation by the
resolved client. -/
def Handler (envr : String) (s : ClientsState) (r : HttpRequest) : HandlerResult :=
  if !(r.method == "POST" || r.method == "QUERY") then HandlerResult.methodNotAllowed
  else
    let featureName := featureNameOf r.path
    if featureName == "" then HandlerResult.missingFeatureName
    else if !(IsValidName featureName) then HandlerResult.invalidFeatureName
    else
      match decodeRequest r.body with
      | none => HandlerResult.malformedBody
      | some req =>
        if req.appName == "" then HandlerResult.missingAppName
        else
          match Get s req.appName with
          | none => HandlerResult.unknownAppName
          | some client =>
            HandlerResult.ok (client.isEnabled featureName (mkContext envr req r.remoteAddr))

/-! ## Lemmas about path escaping -/

theorem escapeByte_length_ge (b : Nat) : 1 ≤ (escapeByte b).length := by
  unfold escapeByte
  split <;> simp

theorem pathEscape_length_ge (bs : List Nat) : bs.length ≤ (pathEscape bs).length := by
  induction bs with
  | nil => simp [pathEscape]
  | cons b rest ih =>
    simp only [pathEscape, List.flatMap_cons, List.length_append, List.length_cons]
    have h1 := escapeByte_length_ge b
    simp only [pathEscape] at ih
    omega

theorem escapeByte_of_safe {b : Nat} (h : shouldEsc b = false) : escapeByte b = [b] := by
  simp [escapeByte, h]

theorem pathEscape_fixed_iff (bs : List Nat) :
    pathEscape bs = bs ↔ ∀ b ∈ bs, shouldEsc b = false := by
  induction bs with
  | nil => simp [pathEscape]
  | cons b rest ih =>
    simp only [pathEscape, List.flatMap_cons]
    constructor
    · intro h
      by_cases hb : shouldEsc b
      · exfalso
        have hlen : (escapeByte b ++ rest.flatMap escapeByte).length = (b :: rest).length := by
          rw [h]
        have h2 := pathEscape_length_ge rest
        simp only [pathEscape] at h2
        simp only [escapeByte, hb, if_pos, List.length_append, List.length_cons,
          List.length_nil] at hlen
        omega
      · have hb' : shouldEsc b = false := by simpa using hb
        rw [escapeByte_of_safe hb'] at h
        simp only [List.singleton_append, List.cons.injEq, true_and] at h
        intro x hx
        rcases List.mem_cons.mp hx with hx | hx
        · exact hx ▸ hb'
        · exact (ih.mp h) x hx
    · intro h
      have hb' : shouldEsc b = false := h b (List.mem_cons_self b rest)
      rw [escapeByte_of_safe hb']
      simp only [List.singleton_append, List.cons.injEq, true_and]
      exact ih.mpr fun x hx => h x (List.mem_cons_of_mem b hx)

/-- spec C2: IsValidName returns false for every name of byte length 0 or
at least 101, for the names `.` and `..`, and for every name containing a
byte that changes under single-path-segment percent-encoding; for every
other path-safe name of length 1 to 100 it returns true. -/
theorem validateFlagName_characterization (bs : List Nat) :
    isValidNameBytes bs = true ↔
      1 ≤ bs.length ∧ bs.length ≤ 100 ∧ bs ≠ dotBytes ∧ bs ≠ dotdotBytes ∧
        ∀ b ∈ bs, shouldEsc b = false := by
  unfold isValidNameBytes
  by_cases h1 : (bs.length < 1 || bs.length > 100) = true
  · rw [if_pos h1]
    simp only [Bool.or_eq_true, decide_eq_true_eq] at h1
    simp only [Bool.false_eq_true, false_iff]
    rintro ⟨ha, hb, -, -, -⟩
    omega
  · rw [if_neg h1]
    simp only [Bool.or_eq_true, decide_eq_true_eq, not_or, not_lt, not_le] at h1
    by_cases h2 : (bs == dotBytes || bs == dotdotBytes) = true
    · rw [if_pos h2]
      simp only [Bool.or_eq_true, beq_iff_eq] at h2
      simp only [Bool.false_eq_true, false_iff]
      rintro ⟨-, -, hd, hdd, -⟩
      rcases h2 with h2 | h2
      · exact hd h2
      · exact hdd h2
    · rw [if_neg h2]
      simp only [Bool.or_eq_true, beq_iff_eq, not_or] at h2
      rw [beq_iff_eq, pathEscape_fixed_iff]
      constructor
      · intro h
        exact ⟨by omega, by omega, h2.1, h2.2, h⟩
      · rintro ⟨-, -, -, -, h⟩
        exact h

/-! ## Lemmas about the client map -/

theorem mapGet_insert_self (m : List (String × Client)) (k : String) (v : Client) :
    mapGet (mapInsert m k v) k = some v := by
  induction m with
  | nil => simp [mapInsert, mapGet]
  | cons p rest ih =>
    cases hpk : (p.1 == k) <;> simp [mapInsert, mapGet, hpk, ih]

theorem mapGet_insert_ne (m : List (String × Client)) (k k' : String) (v : Client)
    (h : k' ≠ k) : mapGet (mapInsert m k v) k' = mapGet m k' := by
  induction m with
  | nil =>
    have : (k == k') = false := by
      simp [beq_eq_false_iff_ne]
      exact fun he => h he.symm
    simp [mapInsert, mapGet, this]
  | cons p rest ih =>
    cases hpk : (p.1 == k)
    · simp [mapInsert, mapGet, hpk, ih]
    · have hp : p.1 = k := beq_iff_eq.mp hpk
      have hkk : (k == k') = false := by
        simp [beq_eq_false_iff_ne]
        exact fun he => h he.symm
      have hpk' : (p.1 == k') = false := by rw [hp]; exact hkk
      simp [mapInsert, mapGet, hpk, hkk, hpk']

theorem mapGet_eq_none_iff (m : List (String × Client)) (k : String) :
    mapGet m k = none ↔ k ∉ m.map Prod.fst := by
  induction m with
  | nil => simp [mapGet]
  | cons p rest ih =>
    cases hpk : (p.1 == k)
    · have hp : p.1 ≠ k := by simpa [beq_eq_false_iff_ne] using hpk
      rw [show mapGet (p :: rest) k = mapGet rest k by simp [mapGet, hpk], ih,
        List.map_cons]
      constructor
      · intro hn hmem
        rcases List.mem_cons.mp hmem with h | h
        · exact hp h.symm
        · exact hn h
      · intro hn h
        exact hn (List.mem_cons_of_mem _ h)
    · have hp : p.1 = k := beq_iff_eq.mp hpk
      rw [show mapGet (p :: rest) k = some p.2 by simp [mapGet, hpk], List.map_cons]
      constructor
      · intro h; cases h
      · intro hn
        exact absurd (List.mem_cons.mpr (Or.inl hp.symm)) hn

theorem isSome_mapGet_insert (m : List (String × Client)) (k : String) (v : Client)
    (app : String) (h : (mapGet m app).isSome = true) :
    (mapGet (mapInsert m k v) app).isSome = true := by
  by_cases hk : app = k
  · subst hk; rw [mapGet_insert_self]; rfl
  · rw [mapGet_insert_ne m k app v hk]; exact h

theorem isSome_insertResults_mono (rs : List (String × Except String Client))
    (m : List (String × Client)) (app : String) (h : (mapGet m app).isSome = true) :
    (mapGet (insertResults m rs) app).isSome = true := by
  induction rs generalizing m with
  | nil => exact h
  | cons p rest ih =>
    cases hp : p.2 with
    | ok c =>
      have : insertResults m (p :: rest) = insertResults (mapInsert m p.1 c) rest := by
        simp [insertResults, hp]
      rw [this]
      exact ih _ (isSome_mapGet_insert m p.1 c app h)
    | error e =>
      have : insertResults m (p :: rest) = insertResults m rest := by
        simp [insertResults, hp]
      rw [this]
      exact ih _ h

theorem isSome_insertResults_of_ok (rs : List (String × Except String Client))
    (m : List (String × Client)) (app : String) (c : Client)
    (hmem : (app, Except.ok c) ∈ rs) :
    (mapGet (insertResults m rs) app).isSome = true := by
  induction rs generalizing m with
  | nil => cases hmem
  | cons p rest ih =>
    rcases List.mem_cons.mp hmem with heq | hmem'
    · have : insertResults m (p :: rest) = insertResults (mapInsert m app c) rest := by
        rw [← heq]; simp [insertResults]
      rw [this]
      exact isSome_insertResults_mono rest _ app
        (by rw [mapGet_insert_self]; rfl)
    · cases hp : p.2 with
      | ok c2 =>
        have : insertResults m (p :: rest) = insertResults (mapInsert m p.1 c2) rest := by
          simp [insertResults, hp]
        rw [this]; exact ih _ hmem'
      | error e =>
        have : insertResults m (p :: rest) = insertResults m rest := by
          simp [insertResults, hp]
        rw [this]; exact ih _ hmem'

theorem mapGet_insertResults_notMem (rs : List (String × Except String Client))
    (m : List (String × Client)) (app : String) (h : ∀ p ∈ rs, p.1 ≠ app) :
    mapGet (insertResults m rs) app = mapGet m app := by
  induction rs generalizing m with
  | nil => rfl
  | cons p rest ih =>
    have hp1 : p.1 ≠ app := h p (List.mem_cons_self p rest)
    have hrest : ∀ q ∈ rest, q.1 ≠ app := fun q hq => h q (List.mem_cons_of_mem p hq)
    cases hp : p.2 with
    | ok c =>
      have : insertResults m (p :: rest) = insertResults (mapInsert m p.1 c) rest := by
        simp [insertResults, hp]
      rw [this, ih _ hrest, mapGet_insert_ne m p.1 app c (fun he => hp1 he.symm)]
    | error e =>
      have : insertResults m (p :: rest) = insertResults m rest := by
        simp [insertResults, hp]
      rw [this, ih _ hrest]

theorem mem_keys_insert (m : List (String × Client)) (k : String) (v : Client)
    (k' : String) (h : k' ∈ (mapInsert m k v).map Prod.fst) :
    k' ∈ m.map Prod.fst ∨ k' = k := by
  induction m with
  | nil =>
    rw [show mapInsert [] k v = [(k, v)] from rfl, List.map_cons, List.map_nil] at h
    rcases List.mem_cons.mp h with h | h
    · right; exact h
    · cases h
  | cons p rest ih =>
    cases hpk : (p.1 == k)
    · rw [show mapInsert (p :: rest) k v = p :: mapInsert rest k v by
        simp [mapInsert, hpk], List.map_cons] at h
      rcases List.mem_cons.mp h with h | h
      · left; rw [List.map_cons]; exact List.mem_cons.mpr (Or.inl h)
      · rcases ih h with h2 | h2
        · left; rw [List.map_cons]; exact List.mem_cons_of_mem _ h2
        · right; exact h2
    · rw [show mapInsert (p :: rest) k v = (k, v) :: rest by
        simp [mapInsert, hpk], List.map_cons] at h
      rcases List.mem_cons.mp h with h | h
      · right; exact h
      · left; rw [List.map_cons]; exact List.mem_cons_of_mem _ h

theorem mem_keys_insertResults (rs : List (String × Except String Client))
    (m : List (String × Client)) (k' : String)
    (h : k' ∈ (insertResults m rs).map Prod.fst) :
    k' ∈ m.map Prod.fst ∨ k' ∈ rs.map Prod.fst := by
  induction rs generalizing m with
  | nil => left; exact h
  | cons p rest ih =>
    cases hp : p.2 with
    | ok c =>
      have he : insertResults m (p :: rest) = insertResults (mapInsert m p.1 c) rest := by
        simp [insertResults, hp]
      rw [he] at h
      rcases ih _ h with h2 | h2
      · rcases mem_keys_insert m p.1 c k' h2 with h3 | h3
        · left; exact h3
        · right; rw [List.map_cons]; exact List.mem_cons.mpr (Or.inl h3)
      · right; rw [List.map_cons]; exact List.mem_cons_of_mem _ h2
    | error e =>
      have he : insertResults m (p :: rest) = insertResults m rest := by
        simp [insertResults, hp]
      rw [he] at h
      rcases ih _ h with h2 | h2
      · left; exact h2
      · right; rw [List.map_cons]; exact List.mem_cons_of_mem _ h2

/-! ## Lemmas about Initialize and operation traces -/

theorem constructResults_fsts (construct : String → Except String Client)
    (apps : List String) : (constructResults construct apps).map Prod.fst = apps := by
  simp only [constructResults, List.map_map]
  have h : (Prod.fst ∘ fun a => (a, construct a)) = id := funext fun a => rfl
  rw [h, List.map_id]

theorem mem_constructResults (construct : String → Except String Client)
    (apps : List String) (app : String) (h : app ∈ apps) :
    (app, construct app) ∈ constructResults construct apps := by
  simp only [constructResults, List.mem_map]
  exact ⟨app, h, rfl⟩

theorem failuresOf_constructResults_nil_iff (construct : String → Except String Client)
    (apps : List String) :
    failuresOf (constructResults construct apps) = [] ↔
      ∀ app ∈ apps, ∃ c, construct app = Except.ok c := by
  simp only [failuresOf, constructResults, List.filterMap_map, List.filterMap_eq_nil_iff]
  constructor
  · intro h app ha
    have := h app ha
    cases hc : construct app with
    | ok c => exact ⟨c, rfl⟩
    | error e =>
      exfalso
      simp [Function.comp, hc] at this
  · intro h app ha
    rcases h app ha with ⟨c, hc⟩
    simp [Function.comp, hc]

theorem mem_failuresOf_constructResults (construct : String → Except String Client)
    (apps : List String) (msg : String) :
    msg ∈ failuresOf (constructResults construct apps) ↔
      ∃ app cause, app ∈ apps ∧ construct app = Except.error cause ∧
        msg = mkInitErr app cause := by
  simp only [failuresOf, constructResults, List.filterMap_map, List.mem_filterMap]
  constructor
  · rintro ⟨app, ha, hmsg⟩
    cases hc : construct app with
    | ok c => simp [Function.comp, hc] at hmsg
    | error e =>
      simp only [Function.comp, hc, Option.some.injEq] at hmsg
      exact ⟨app, e, ha, hc, hmsg.symm⟩
  · rintro ⟨app, cause, ha, hc, hmsg⟩
    refine ⟨app, ha, ?_⟩
    simp [Function.comp, hc, hmsg]

theorem initialize_clientMap (construct : String → Except String Client)
    (apps : List String) (s : ClientsState) :
    (Initialize construct apps s).1.clientMap =
      insertResults s.clientMap (constructResults construct apps) := by
  unfold Initialize
  by_cases h : (failuresOf (constructResults construct apps)).isEmpty = true
  · rw [if_pos h]
  · rw [if_neg h]

theorem initialize_error_eq (construct : String → Except String Client)
    (apps : List String) (s : ClientsState) :
    (Initialize construct apps s).2 =
      if (failuresOf (constructResults construct apps)).isEmpty = true then none
      else some (failuresOf (constructResults construct apps)) := by
  unfold Initialize
  by_cases h : (failuresOf (constructResults construct apps)).isEmpty = true
  · rw [if_pos h, if_pos h]
  · rw [if_neg h, if_neg h]

theorem initialize_ready (construct : String → Except String Client)
    (apps : List String) (s : ClientsState) :
    (Initialize construct apps s).1.ready =
      if (failuresOf (constructResults construct apps)).isEmpty = true then true
      else s.ready := by
  unfold Initialize
  by_cases h : (failuresOf (constructResults construct apps)).isEmpty = true
  · rw [if_pos h, if_pos h]
  · rw [if_neg h, if_neg h]

theorem ready_run_of_noInit (apps : List String) (ops : List Op) (s : ClientsState)
    (h : ∀ op ∈ ops, op.isInit = false) : Ready (run apps ops s) = Ready s := by
  induction ops generalizing s with
  | nil => rfl
  | cons op rest ih =>
    have hop : op.isInit = false := h op (List.mem_cons_self op rest)
    have hrest : ∀ o ∈ rest, o.isInit = false :=
      fun o ho => h o (List.mem_cons_of_mem op ho)
    have hrun : run apps (op :: rest) s = run apps rest (applyOp apps s op) := rfl
    rw [hrun, ih (applyOp apps s op) hrest]
    cases op with
    | initClients c => simp [Op.isInit] at hop
    | get a => rfl
    | close => rfl

/-! ## Lemmas about the handler -/

theorem isValidName_ne_empty {n : String} (h : IsValidName n = true) : (n == "") = false := by
  cases hn : (n == "") with
  | false => rfl
  | true =>
    exfalso
    have he : n = "" := beq_iff_eq.mp hn
    subst he
    have : IsValidName "" = false := by decide
    rw [this] at h
    cases h

theorem method_ok_beq {r : HttpRequest} (hm : r.method = "POST" ∨ r.method = "QUERY") :
    (r.method == "POST" || r.method == "QUERY") = true := by
  rcases hm with h | h <;> simp [h]

theorem handler_reduce (envr : String) (s : ClientsState) (r : HttpRequest) (req : Request)
    (hm : r.method = "POST" ∨ r.method = "QUERY")
    (hv : IsValidName (featureNameOf r.path) = true)
    (hb : decodeRequest r.body = some req) :
    Handler envr s r =
      (if req.appName == "" then HandlerResult.missingAppName
       else
         match Get s req.appName with
         | none => HandlerResult.unknownAppName
         | some client =>
           HandlerResult.ok
             (client.isEnabled (featureNameOf r.path) (mkContext envr req r.remoteAddr))) := by
  have hmB := method_ok_beq hm
  have hne := isValidName_ne_empty hv
  unfold Handler
  simp only [hmB, hne, hv, hb, Bool.not_true, Bool.false_eq_true, if_false]

theorem handler_malformed (envr : String) (s : ClientsState) (r : HttpRequest)
    (hm : r.method = "POST" ∨ r.method = "QUERY")
    (hv : IsValidName (featureNameOf r.path) = true)
    (hb : decodeRequest r.body = none) :
    Handler envr s r = HandlerResult.malformedBody := by
  have hmB := method_ok_beq hm
  have hne := isValidName_ne_empty hv
  unfold Handler
  simp only [hmB, hne, hv, hb, Bool.not_true, Bool.false_eq_true, if_false]

theorem handler_invalid (envr : String) (s : ClientsState) (r : HttpRequest)
    (hm : r.method = "POST" ∨ r.method = "QUERY")
    (hne : (featureNameOf r.path == "") = false)
    (hv : IsValidName (featureNameOf r.path) = false) :
    Handler envr s r = HandlerResult.invalidFeatureName := by
  have hmB := method_ok_beq hm
  unfold Handler
  simp only [hmB, hne, hv, Bool.not_true, Bool.not_false, Bool.false_eq_true, if_false,
    if_true]

theorem strData_append (s t : String) : (s ++ t).data = s.data ++ t.data := rfl

theorem mem_joinApps_infix (apps : List String) (a : String) (ha : a ∈ apps) :
    ∃ u v : List Char, (joinApps apps).data = u ++ a.data ++ v := by
  induction apps with
  | nil => cases ha
  | cons x rest ih =>
    cases rest with
    | nil =>
      have hx : a = x := by
        rcases List.mem_cons.mp ha with h | h
        · exact h
        · cases h
      refine ⟨[], [], ?_⟩
      rw [hx]
      simp [joinApps]
    | cons y t =>
      rcases List.mem_cons.mp ha with h | h
      · refine ⟨[], (", " ++ joinApps (y :: t)).data, ?_⟩
        rw [show joinApps (x :: y :: t) = x ++ ", " ++ joinApps (y :: t) from rfl]
        rw [strData_append, strData_append, strData_append]
        rw [h]
        simp
      · rcases ih h with ⟨u, v, huv⟩
        refine ⟨(x ++ ", ").data ++ u, v, ?_⟩
        rw [show joinApps (x :: y :: t) = x ++ ", " ++ joinApps (y :: t) from rfl]
        rw [strData_append, huv]
        simp

/-! ## Claims about the feature handler -/

/-- spec C3: for every valid request (accepted method, valid flag name,
well-formed body, caller identity present in the registry) the handler
responds with status 200 and body containing exactly the boolean returned
by the resolved client's evaluation under the context built from the
request (environment, userId from navIdent, appName equal to the caller
identity, remoteAddress, and the podName property); the decision is
returned verbatim. -/
theorem handler_valid_request_returns_decision (apps : List String) (envr : String)
    (s : ClientsState) (r : HttpRequest) (req : Request) (client : Client)
    (hm : r.method = "POST" ∨ r.method = "QUERY")
    (hv : IsValidName (featureNameOf r.path) = true)
    (hb : decodeRequest r.body = some req)
    (happ : (req.appName == "") = false)
    (hget : Get s req.appName = some client) :
    Handler envr s r =
      HandlerResult.ok
        (client.isEnabled (featureNameOf r.path)
          { environment := envr, userId := req.navIdent, appName := req.appName,
            remoteAddress := r.remoteAddr, properties := [("podName", req.podName)] }) ∧
    statusCode (Handler envr s r) = 200 ∧
    responseBody apps (Handler envr s r) =
      "\x7b\"enabled\":" ++
        (if client.isEnabled (featureNameOf r.path) (mkContext envr req r.remoteAddr)
         then "true" else "false") ++ "\x7d\n" := by
  have h := handler_reduce envr s r req hm hv hb
  rw [happ] at h
  simp only [Bool.false_eq_true, if_false, hget] at h
  refine ⟨?_, ?_, ?_⟩
  · rw [h]; rfl
  · rw [h]; rfl
  · rw [h]; rfl

/-- spec C7: a request whose trailing path segment fails flag-name
validation is rejected with the invalid-flag-name error, with a status in
the client-error class, and the outcome does not depend on the registry
state at all (no Registry lookup can influence it); in particular a POST
to /features/../etc is so rejected in every registry state. -/
theorem invalid_flagName_rejected_before_lookup (envr : String) (s s2 : ClientsState)
    (r : HttpRequest)
    (hm : r.method = "POST" ∨ r.method = "QUERY")
    (hne : (featureNameOf r.path == "") = false)
    (hv : IsValidName (featureNameOf r.path) = false) :
    Handler envr s r = HandlerResult.invalidFeatureName ∧
    Handler envr s r = Handler envr s2 r ∧
    400 ≤ statusCode HandlerResult.invalidFeatureName ∧
    statusCode HandlerResult.invalidFeatureName < 500 ∧
    (∀ st : ClientsState,
      Handler envr st
          { method := "POST", path := "/features/../etc", body := "", remoteAddr := "" } =
        HandlerResult.invalidFeatureName) := by
  refine ⟨handler_invalid envr s r hm hne hv, ?_, by decide, by decide, ?_⟩
  · rw [handler_invalid envr s r hm hne hv, handler_invalid envr s2 r hm hne hv]
  · intro st
    exact handler_invalid envr st _ (Or.inl rfl) (by decide) (by decide)

/-- Witness for C7 at the concrete scenario-C request. -/
theorem invalid_flagName_rejected_before_lookup_witness :
    Handler "development" initialState
        { method := "POST", path := "/features/../etc", body := "", remoteAddr := "" } =
      HandlerResult.invalidFeatureName := by
  exact (invalid_flagName_rejected_before_lookup "development" initialState initialState
    { method := "POST", path := "/features/../etc", body := "", remoteAddr := "" }
    (Or.inl rfl) (by decide) (by decide)).1

/-- spec C8: a well-formed body whose caller-identity field is empty is
rejected with the missing-caller-identity error, status 400, the outcome
is the same in every registry state (no lookup, no evaluation), and the
error message lists every allowed caller identity. -/
theorem missing_caller_identity_lists_allowed (apps : List String) (envr : String)
    (s s2 : ClientsState) (r : HttpRequest) (req : Request)
    (hm : r.method = "POST" ∨ r.method = "QUERY")
    (hv : IsValidName (featureNameOf r.path) = true)
    (hb : decodeRequest r.body = some req)
    (happ : req.appName = "") :
    Handler envr s r = HandlerResult.missingAppName ∧
    Handler envr s2 r = Handler envr s r ∧
    statusCode HandlerResult.missingAppName = 400 ∧
    responseBody apps HandlerResult.missingAppName =
      "app_name is required in request body, must be one of the allowed inbound applications: " ++
        joinApps apps ++ "\n" ∧
    ∀ a ∈ apps, ∃ u v : List Char,
      (responseBody apps HandlerResult.missingAppName).data = u ++ a.data ++ v := by
  have happB : (req.appName == "") = true := by simp [happ]
  have h := handler_reduce envr s r req hm hv hb
  simp only [happB, if_true] at h
  have h2 := handler_reduce envr s2 r req hm hv hb
  simp only [happB, if_true] at h2
  refine ⟨h, by rw [h, h2], rfl, rfl, ?_⟩
  intro a ha
  rcases mem_joinApps_infix apps a ha with ⟨u, v, huv⟩
  refine ⟨("app_name is required in request body, must be one of the allowed inbound applications: ").data ++ u,
    v ++ ("\n").data, ?_⟩
  rw [show responseBody apps HandlerResult.missingAppName =
    "app_name is required in request body, must be one of the allowed inbound applications: " ++
      joinApps apps ++ "\n" from rfl]
  rw [strData_append, strData_append, huv]
  simp

/-- Witness for C3 at scenario B: app1's client returns true for my-flag
under userId U1, and the handler returns enabled = true. -/
theorem handler_valid_request_returns_decision_witness :
    Handler "development"
        { clientMap :=
            [("app1", { isEnabled := fun f ctx => f == "my-flag" && ctx.userId == "U1" })],
          ready := true }
        { method := "POST", path := "/features/my-flag",
          body := "\x7b\"appName\":\"app1\",\"navIdent\":\"U1\"\x7d",
          remoteAddr := "10.0.0.1" } =
      HandlerResult.ok true := by
  have h := handler_valid_request_returns_decision ["app1"] "development"
    { clientMap :=
        [("app1", { isEnabled := fun f ctx => f == "my-flag" && ctx.userId == "U1" })],
      ready := true }
    { method := "POST", path := "/features/my-flag",
      body := "\x7b\"appName\":\"app1\",\"navIdent\":\"U1\"\x7d",
      remoteAddr := "10.0.0.1" }
    { navIdent := "U1", appName := "app1", podName := "" }
    { isEnabled := fun f ctx => f == "my-flag" && ctx.userId == "U1" }
    (Or.inl rfl) (by decide) (by decide) (by decide) rfl
  rw [h.1]
  rfl

/-- spec C4: the handler fails with the unknown-caller error exactly when
Registry.Get reports not found; Get returns none precisely for the
identities not present in the mapping — never-allowed and allow-listed
but not-yet-initialized callers alike, indistinguishably (any two states
in which the identity is absent produce the same response); the error
shares the 400 client-error status with the missing-caller-identity
error. -/
theorem unknown_caller_rejection (envr : String) (s s2 : ClientsState) (r : HttpRequest)
    (req : Request) (app : String)
    (hm : r.method = "POST" ∨ r.method = "QUERY")
    (hv : IsValidName (featureNameOf r.path) = true)
    (hb : decodeRequest r.body = some req)
    (happ : (req.appName == "") = false) :
    (Get s app = none ↔ app ∉ s.clientMap.map Prod.fst) ∧
    (Handler envr s r = HandlerResult.unknownAppName ↔ Get s req.appName = none) ∧
    (Get s req.appName = none → Get s2 req.appName = none →
      Handler envr s r = Handler envr s2 r) ∧
    statusCode HandlerResult.unknownAppName = statusCode HandlerResult.missingAppName ∧
    statusCode HandlerResult.unknownAppName = 400 := by
  have h := handler_reduce envr s r req hm hv hb
  rw [happ] at h
  simp only [Bool.false_eq_true, if_false] at h
  have h2 := handler_reduce envr s2 r req hm hv hb
  rw [happ] at h2
  simp only [Bool.false_eq_true, if_false] at h2
  refine ⟨mapGet_eq_none_iff s.clientMap app, ?_, ?_, rfl, rfl⟩
  · cases hg : Get s req.appName with
    | none =>
      rw [hg] at h
      simp only [h]
    | some c =>
      rw [hg] at h
      simp only at h
      constructor
      · intro hcon
        rw [h] at hcon
        exact absurd hcon (by simp)
      · intro hcon
        exact absurd hcon (by simp)
  · intro hg hg2
    rw [hg] at h
    rw [hg2] at h2
    simp only at h h2
    rw [h, h2]

/-- Witness for C4: an identity absent from an empty registry is rejected
as unknown. -/
theorem unknown_caller_rejection_witness :
    Handler "development" initialState
        { method := "POST", path := "/features/my-flag",
          body := "\x7b\"appName\":\"nope\"\x7d", remoteAddr := "" } =
      HandlerResult.unknownAppName := by
  exact ((unknown_caller_rejection "development" initialState initialState
    { method := "POST", path := "/features/my-flag",
      body := "\x7b\"appName\":\"nope\"\x7d", remoteAddr := "" }
    { navIdent := "", appName := "nope", podName := "" } "nope"
    (Or.inl rfl) (by decide) (by decide) (by decide)).2.1).mpr rfl

/-- spec C10: the malformed-body error is raised iff decoding the first
JSON value of the body fails (an empty body included); a body whose first
value decodes is accepted even with trailing bytes after it, unknown
fields are ignored, and absent fields parse as empty strings — so the
body consisting of an empty JSON object yields the missing-caller-identity
error, not the malformed-body error. -/
theorem malformed_body_iff_decode_fails (envr : String) (s : ClientsState) (r : HttpRequest)
    (hm : r.method = "POST" ∨ r.method = "QUERY")
    (hv : IsValidName (featureNameOf r.path) = true) :
    (Handler envr s r = HandlerResult.malformedBody ↔ decodeRequest r.body = none) ∧
    decodeRequest "" = none ∧
    decodeRequest "\x7b\x7d" = some emptyRequest ∧
    (r.body = "\x7b\x7d" → Handler envr s r = HandlerResult.missingAppName) ∧
    decodeRequest "\x7b\"appName\":\"a\",\"unknownField\":123\x7d trailing" =
      some { navIdent := "", appName := "a", podName := "" } := by
  refine ⟨?_, by decide, by decide, ?_, by decide⟩
  · cases hd : decodeRequest r.body with
    | none => simp [handler_malformed envr s r hm hv hd]
    | some req =>
      have h := handler_reduce envr s r req hm hv hd
      constructor
      · intro hcon
        rw [h] at hcon
        by_cases ha : (req.appName == "") = true
        · rw [ha] at hcon
          simp at hcon
        · have ha' : (req.appName == "") = false := by
            cases hq : (req.appName == "")
            · rfl
            · exact absurd hq ha
          rw [ha'] at hcon
          simp only [Bool.false_eq_true, if_false] at hcon
          cases hg : Get s req.appName with
          | none =>
            rw [hg] at hcon
            exact absurd hcon (by simp)
          | some c =>
            rw [hg] at hcon
            exact absurd hcon (by simp)
      · intro hcon
        exact absurd hcon (by simp)
  · intro hbody
    have hd : decodeRequest r.body = some emptyRequest := by
      rw [hbody]
      decide
    have h := handler_reduce envr s r emptyRequest hm hv hd
    rw [h]
    simp [emptyRequest]

/-- Witness for C10: a request whose body is the empty JSON object is
rejected for its missing caller identity, not as malformed. -/
theorem malformed_body_iff_decode_fails_witness :
    Handler "development" initialState
        { method := "POST", path := "/features/my-flag",
          body := "\x7b\x7d", remoteAddr := "" } =
      HandlerResult.missingAppName := by
  exact (malformed_body_iff_decode_fails "development" initialState
    { method := "POST", path := "/features/my-flag", body := "\x7b\x7d", remoteAddr := "" }
    (Or.inl rfl) (by decide)).2.2.2.1 rfl

/-! ## Claims about the registry lifecycle -/

/-- spec C9: Close empties the client mapping — afterwards Get yields none
for every identity — but leaves the readiness flag unchanged (so IsReady
keeps returning true after a successful startup even once every client
has been closed), and a second Close leaves the already empty mapping
unchanged. -/
theorem close_empties_map_preserves_ready (s : ClientsState) (app : String) :
    Get (Close s) app = none ∧ Ready (Close s) = Ready s ∧
    Close (Close s) = Close s ∧ (Close s).clientMap = [] :=
  ⟨rfl, rfl, rfl, rfl⟩

theorem keys_applyOp (apps : List String) (s : ClientsState) (op : Op)
    (h : ∀ k ∈ s.clientMap.map Prod.fst, k ∈ apps) :
    ∀ k ∈ (applyOp apps s op).clientMap.map Prod.fst, k ∈ apps := by
  cases op with
  | initClients construct =>
    intro k hk
    have he : (applyOp apps s (Op.initClients construct)).clientMap =
        insertResults s.clientMap (constructResults construct apps) :=
      initialize_clientMap construct apps s
    rw [he] at hk
    rcases mem_keys_insertResults _ _ _ hk with h2 | h2
    · exact h k h2
    · rw [constructResults_fsts] at h2
      exact h2
  | get a => exact h
  | close =>
    intro k hk
    rw [show (applyOp apps s Op.close).clientMap = [] from rfl, List.map_nil] at hk
    cases hk

/-- spec C5: at every state reachable from the initial state by a sequence
of registry operations (Initialize insertions, Get, Close), every key of
the client mapping is a member of the configured allow-list. -/
theorem registry_keys_in_allowList (apps : List String) (ops : List Op) :
    ∀ k ∈ (run apps ops initialState).clientMap.map Prod.fst, k ∈ apps := by
  have main : ∀ (os : List Op) (s : ClientsState),
      (∀ k ∈ s.clientMap.map Prod.fst, k ∈ apps) →
      ∀ k ∈ (run apps os s).clientMap.map Prod.fst, k ∈ apps := by
    intro os
    induction os with
    | nil => exact fun s h => h
    | cons op rest ih =>
      intro s h
      exact ih (applyOp apps s op) (keys_applyOp apps s op h)
  refine main ops initialState ?_
  intro k hk
  simp [initialState] at hk

/-- Witness for C5: after a successful Initialize of a two-app allow-list,
the key app1 of the mapping is in the allow-list. -/
theorem registry_keys_in_allowList_witness :
    "app1" ∈ ["app1", "app2"] := by
  exact registry_keys_in_allowList ["app1", "app2"]
    [Op.initClients (fun _ => Except.ok { isEnabled := fun _ _ => true })] "app1"
    (by decide)

/-- spec C1: from the initial state, zero construction failures make
Initialize return no error, set the readiness flag and make Get succeed
for every identity of the allow-list; with at least one failure it
returns an aggregate error carrying exactly the per-identity failure
messages (identity and underlying cause), does not set the readiness
flag, and no later Get or Close call flips it. -/
theorem initialize_readiness_and_aggregate_error
    (construct : String → Except String Client) (apps : List String) :
    ((∀ app ∈ apps, ∃ c, construct app = Except.ok c) →
      (Initialize construct apps initialState).2 = none) ∧
    ((Initialize construct apps initialState).2 = none →
      Ready (Initialize construct apps initialState).1 = true ∧
      ∀ app ∈ apps, (Get (Initialize construct apps initialState).1 app).isSome = true) ∧
    (∀ l, (Initialize construct apps initialState).2 = some l →
      (∀ app cause, app ∈ apps → construct app = Except.error cause →
        mkInitErr app cause ∈ l) ∧
      (∀ msg ∈ l, ∃ app cause, app ∈ apps ∧ construct app = Except.error cause ∧
        msg = mkInitErr app cause) ∧
      Ready (Initialize construct apps initialState).1 = false ∧
      (∀ ops : List Op, (∀ op ∈ ops, op.isInit = false) →
        Ready (run apps ops (Initialize construct apps initialState).1) = false)) := by
  refine ⟨?_, ?_, ?_⟩
  · intro h
    have hnil : failuresOf (constructResults construct apps) = [] :=
      (failuresOf_constructResults_nil_iff construct apps).mpr h
    rw [initialize_error_eq, hnil]
    rfl
  · intro h
    have hemp : (failuresOf (constructResults construct apps)).isEmpty = true := by
      by_contra hc
      rw [initialize_error_eq, if_neg hc] at h
      exact absurd h (by simp)
    have hnil : failuresOf (constructResults construct apps) = [] :=
      List.isEmpty_iff.mp hemp
    constructor
    · show (Initialize construct apps initialState).1.ready = true
      rw [initialize_ready, if_pos hemp]
    · intro app ha
      rcases (failuresOf_constructResults_nil_iff construct apps).mp hnil app ha with ⟨c, hc⟩
      have hmem : (app, Except.ok c) ∈ constructResults construct apps := by
        have hm := mem_constructResults construct apps app ha
        rw [hc] at hm
        exact hm
      show (mapGet (Initialize construct apps initialState).1.clientMap app).isSome = true
      rw [initialize_clientMap]
      exact isSome_insertResults_of_ok _ _ app c hmem
  · intro l hl
    have hne : ¬(failuresOf (constructResults construct apps)).isEmpty = true := by
      intro hc
      rw [initialize_error_eq, if_pos hc] at hl
      exact absurd hl (by simp)
    have hleq : l = failuresOf (constructResults construct apps) := by
      rw [initialize_error_eq, if_neg hne] at hl
      exact (Option.some_inj.mp hl).symm
    have hready : Ready (Initialize construct apps initialState).1 = false := by
      show (Initialize construct apps initialState).1.ready = false
      rw [initialize_ready, if_neg hne]
      rfl
    refine ⟨?_, ?_, hready, ?_⟩
    · intro app cause ha hc
      rw [hleq]
      exact (mem_failuresOf_constructResults construct apps _).mpr ⟨app, cause, ha, hc, rfl⟩
    · intro msg hmsg
      rw [hleq] at hmsg
      exact (mem_failuresOf_constructResults construct apps msg).mp hmsg
    · intro ops hops
      rw [ready_run_of_noInit apps ops _ hops]
      exact hready

/-- Witness for C1: with the construction for app1 failing, Initialize
reports that failure and the readiness flag stays false. -/
theorem initialize_readiness_and_aggregate_error_witness :
    (Initialize
        (fun a => if a == "app1" then Except.error "boom"
                  else Except.ok { isEnabled := fun _ _ => true })
        ["app1", "app2"] initialState).2 = some [mkInitErr "app1" "boom"] ∧
    Ready (Initialize
        (fun a => if a == "app1" then Except.error "boom"
                  else Except.ok { isEnabled := fun _ _ => true })
        ["app1", "app2"] initialState).1 = false := by
  have h := initialize_readiness_and_aggregate_error
    (fun a => if a == "app1" then Except.error "boom"
              else Except.ok { isEnabled := fun _ _ => true })
    ["app1", "app2"]
  have herr : (Initialize
      (fun a => if a == "app1" then Except.error "boom"
                else Except.ok { isEnabled := fun _ _ => true })
      ["app1", "app2"] initialState).2 = some [mkInitErr "app1" "boom"] := rfl
  exact ⟨herr, (h.2.2 [mkInitErr "app1" "boom"] herr).2.2.1⟩

theorem mapGet_insertResults_constructs (construct : String → Except String Client)
    (apps : List String) (m : List (String × Client)) (app : String)
    (hnd : apps.Nodup) (ha : app ∈ apps) :
    mapGet (insertResults m (constructResults construct apps)) app =
      (match construct app with
       | Except.ok c => some c
       | Except.error _ => mapGet m app) := by
  induction apps generalizing m with
  | nil => cases ha
  | cons x rest ih =>
    have hstep : insertResults m (constructResults construct (x :: rest)) =
        insertResults
          (match construct x with
           | Except.ok c => mapInsert m x c
           | Except.error _ => m)
          (constructResults construct rest) := by
      cases hx : construct x <;> simp [constructResults, insertResults, hx]
    rcases List.mem_cons.mp ha with rfl | ha'
    · have hxr : app ∉ rest := (List.nodup_cons.mp hnd).1
      have hnm : ∀ p ∈ constructResults construct rest, p.1 ≠ app := by
        intro p hp
        rcases List.mem_map.mp hp with ⟨a, ha2, hpa⟩
        rw [← hpa]
        intro he
        exact hxr (he ▸ ha2)
      rw [hstep, mapGet_insertResults_notMem _ _ _ hnm]
      cases hx : construct app with
      | ok c => rw [mapGet_insert_self]
      | error e => rfl
    · have hnd' : rest.Nodup := (List.nodup_cons.mp hnd).2
      have hxa : x ≠ app := by
        intro he
        exact (List.nodup_cons.mp hnd).1 (he ▸ ha')
      rw [hstep]
      cases hx : construct x with
      | ok c =>
        rw [ih (mapInsert m x c) hnd' ha',
          mapGet_insert_ne m x app c (fun he => hxa he.symm)]
      | error e =>
        rw [ih m hnd' ha']

/-- spec C6: Initialize performs exactly one client construction per
allow-listed identity (K identities give K constructions, and every
identity's construction is among the results), and the returned state
reflects the outcome of every one of them: a successful construction is
looked up afterwards even when other constructions fail (a full barrier
with no first-error cancellation), and a failed construction leaves its
identity's entry unchanged. -/
theorem initialize_constructs_all_full_barrier
    (construct : String → Except String Client) (apps : List String) (s : ClientsState)
    (hnd : apps.Nodup) :
    (constructResults construct apps).map Prod.fst = apps ∧
    (constructResults construct apps).length = apps.length ∧
    (∀ app ∈ apps, (app, construct app) ∈ constructResults construct apps) ∧
    (∀ app c, app ∈ apps → construct app = Except.ok c →
      Get (Initialize construct apps s).1 app = some c) ∧
    (∀ app cause, app ∈ apps → construct app = Except.error cause →
      Get (Initialize construct apps s).1 app = Get s app) := by
  refine ⟨constructResults_fsts construct apps, by simp [constructResults],
    mem_constructResults construct apps, ?_, ?_⟩
  · intro app c ha hc
    show mapGet (Initialize construct apps s).1.clientMap app = some c
    rw [initialize_clientMap, mapGet_insertResults_constructs construct apps _ app hnd ha, hc]
  · intro app cause ha hc
    show mapGet (Initialize construct apps s).1.clientMap app = mapGet s.clientMap app
    rw [initialize_clientMap, mapGet_insertResults_constructs construct apps _ app hnd ha, hc]

/-- Witness for C6: with app1 failing and app2, app3 succeeding, the
successful clients are still looked up afterwards and the failed
identity's entry is absent. -/
theorem initialize_constructs_all_full_barrier_witness :
    Get (Initialize
        (fun a => if a == "app1" then Except.error "boom"
                  else Except.ok { isEnabled := fun _ _ => false })
        ["app1", "app2", "app3"] initialState).1 "app2" =
      some { isEnabled := fun _ _ => false } ∧
    Get (Initialize
        (fun a => if a == "app1" then Except.error "boom"
                  else Except.ok { isEnabled := fun _ _ => false })
        ["app1", "app2", "app3"] initialState).1 "app1" = none := by
  have h := initialize_constructs_all_full_barrier
    (fun a => if a == "app1" then Except.error "boom"
              else Except.ok { isEnabled := fun _ _ => false })
    ["app1", "app2", "app3"] initialState (by decide)
  refine ⟨h.2.2.2.1 "app2" { isEnabled := fun _ _ => false } (by decide) rfl, ?_⟩
  have h2 := h.2.2.2.2 "app1" "boom" (by decide) rfl
  rw [h2]
  rfl

/-- Witness for C2: the name my-flag satisfies the characterization and
is accepted by the validator. -/
theorem validateFlagName_characterization_witness :
    isValidNameBytes (strBytes "my-flag") = true := by
  exact (validateFlagName_characterization (strBytes "my-flag")).mpr (by decide)

/-- Witness for C8 at scenario D: a body with an empty appName is rejected
with the missing-caller-identity error. -/
theorem missing_caller_identity_lists_allowed_witness :
    Handler "development" initialState
        { method := "POST", path := "/features/my-flag",
          body := "\x7b\"appName\":\"\",\"navIdent\":\"U1\"\x7d", remoteAddr := "" } =
      HandlerResult.missingAppName ∧
    responseBody ["app1", "app2"] HandlerResult.missingAppName =
      "app_name is required in request body, must be one of the allowed inbound applications: app1, app2\n" := by
  have h := missing_caller_identity_lists_allowed ["app1", "app2"] "development"
    initialState initialState
    { method := "POST", path := "/features/my-flag",
      body := "\x7b\"appName\":\"\",\"navIdent\":\"U1\"\x7d", remoteAddr := "" }
    { navIdent := "U1", appName := "", podName := "" }
    (Or.inl rfl) (by decide) (by decide) rfl
  refine ⟨h.1, ?_⟩
  rw [h.2.2.2.1]
  rfl
